import Mathlib

/-!
Verification development for the SoF Event Extractor backend
(`backend/app.py`): a shallow embedding of the job orchestration,
upload validation, and export normalization logic, together with
theorems about the claims of the specification.

Modelling conventions:
* Python dicts are association lists with distinct keys.
* DataFrame cell values after the app's own normalization loops are
  `Option String` (None becomes `none`, timestamps become their ISO
  string, everything else is stringified); raw pipeline cell values are
  the small `PyVal` type.
* The external collaborators (file reads, the two extraction calls of
  the SoF pipeline, the laytime calculator, the result-file write) are
  oracle functions supplied as parameters; each either returns a value
  or raises (`Except.error`), exactly at the call sites where
  `app.py` wraps them in try/except.
* Machine-level side effects (bytes written to the upload directory,
  artifacts written to the results directory, the background task
  queue) are returned as explicit data so theorems can talk about them.
-/

namespace SofApp

/-- A raw cell value as produced by the extraction pipeline DataFrames,
before `app.py` normalizes it: `na` models NaN/None (`pd.isna`), `ts`
models a timestamp-like value (anything with `isoformat`, rendered as
its ISO string), `s` models any other value already rendered by `str`. -/
inductive PyVal where
  | na : PyVal
  | ts : String → PyVal
  | s : String → PyVal
deriving DecidableEq, Repr

/-- Normalization applied by `process_documents_with_sof_pipeline` to each
cell: `None` for NaN, `value.isoformat()` for timestamps, `str(value)`
otherwise (lines 363-370 and 400-407 of `app.py`). -/
def normalizeVal : PyVal → Option String
  | .na => none
  | .ts t => some t
  | .s v => some v

/-- A raw extracted event record: a dict from field name to raw value. -/
abbrev RawEvent := List (String × PyVal)

/-- A normalized event record as stored on a job and sent to exports. -/
abbrev NEvent := List (String × Option String)

/-- Normalize every field of a raw event record. -/
def normalizeEvent (e : RawEvent) : NEvent :=
  e.map (fun kv => (kv.1, normalizeVal kv.2))

/-- A voyage summary dict (string fields only, as the app treats it). -/
abbrev Summary := List (String × String)

/-- Job status vocabulary of `app.py` (`class JobStatus`); `pending` is
declared in the source but never assigned, so it is omitted here. -/
inductive JStatus where
  | processing
  | completed
  | failed
deriving DecidableEq, Repr

/-- One entry of the in-memory `jobs` dict.  Keys that the Python dict
only acquires later (results, error, batch metadata) are `Option`
fields, `none` meaning the key is absent; reads through `job.get(k, d)`
are modelled by `Option.getD`. -/
structure Job where
  job_id : String
  status : JStatus
  user : String
  filenames : List String
  total_files : Nat
  use_enhanced_processing : Bool
  created_at : String
  events : Option (List NEvent) := none
  summary : Option Summary := none
  has_laytime_data : Option Bool := none
  processed_at : Option String := none
  result_file : Option String := none
  processed_files : Option (List String) := none
  successful_files : Option Nat := none
  error : Option String := none
  failed_at : Option String := none
  batch_name : Option String := none
deriving DecidableEq, Repr

/-- `str.split(sep)` for a one-character separator, over the character
list of the string: Python's `"a.pdf".split('.') == ['a','pdf']`,
`"noext".split('.') == ['noext']`, `"".split('.') == ['']`.  The result
is never empty. -/
def splitOnChar (sep : Char) : List Char → List (List Char)
  | [] => [[]]
  | c :: rest =>
    let groups := splitOnChar sep rest
    if c == sep then [] :: groups
    else
      match groups with
      | [] => [[c]]
      | g :: gs => (c :: g) :: gs

/-- `filename.lower().split('.')[-1]` — the extension computation used by
the orchestrator's dispatch rule (line 343 of `app.py`) and, prefixed
with a dot, by the upload validator (line 488). -/
def fileExtension (name : String) : String :=
  String.mk ((splitOnChar '.' (name.data.map Char.toLower)).getLastD [])

/-- One (persisted path, original filename) pair handed to the
orchestrator. -/
structure FileEntry where
  path : String
  filename : String
deriving DecidableEq, Repr

/-- The external collaborators consumed by the orchestrator, as oracles.
`readFile` is `open(file_path,'rb').read()`; `enhancedExtract` is
`process_clicked_pdf_enhanced(content, filename, key)`;
`processUploadedFiles` is `process_uploaded_files(uploads)` (documents
are abstracted to `Nat` handles); `extractEventsAndSummary` is
`extract_events_and_summary(docs, key)`; `writeResult` is the outcome
of writing the `<job_id>_results.json` artifact (the representative
fallible operation of the finalization block). -/
structure Oracle where
  readFile : String → Except String (List Nat)
  enhancedExtract : List Nat → String → String → Except String (List RawEvent × Summary)
  processUploadedFiles : List (List Nat × String) → Except String (List Nat)
  extractEventsAndSummary : List Nat → String → Except String (List RawEvent × Summary)
  writeResult : Except String Unit

/-- Boolean success test for an `Except` result. -/
def isOkE {ε α : Type} : Except ε α → Bool
  | .ok _ => true
  | .error _ => false

/-- Whether reading the file's persisted bytes succeeds. -/
def readOkB (o : Oracle) (f : FileEntry) : Bool :=
  isOkE (o.readFile f.path)

/-- The dispatch condition of line 345 of `app.py`:
`use_enhanced_processing and file_extension == 'pdf' and
len(file_paths_and_names) == 1`. -/
def enhCondB (useEnhanced : Bool) (numFiles : Nat) (f : FileEntry) : Bool :=
  useEnhanced && (fileExtension f.filename == "pdf") && (numFiles == 1)

/-- Whether the enhanced path, once entered for `f`, runs to success:
the key must be configured (otherwise the branch raises) and
`process_clicked_pdf_enhanced` must not raise. -/
def enhSuccess (o : Oracle) (geminiKey : String) (f : FileEntry) : Bool :=
  match o.readFile f.path with
  | .error _ => false
  | .ok c => (!(geminiKey == "")) && isOkE (o.enhancedExtract c f.filename geminiKey)

/-- `{**summary_data, "source_file": filename}` — attach the source file
tag to a summary dict. -/
def withSource (s : Summary) (fn : String) : Summary :=
  (s.filter (fun kv => kv.1 != "source_file")) ++ [("source_file", fn)]

/-- Mutable state of the per-file loop of
`process_documents_with_sof_pipeline`: `all_file_uploads`,
`all_events_list`, `all_summaries`, `processed_filenames`. -/
structure LoopState where
  uploads : List (List Nat × String)
  eventsAcc : List NEvent
  summariesAcc : List Summary
  processed : List String
deriving DecidableEq, Repr

/-- One iteration of the per-file loop (lines 331-381 of `app.py`).
Any exception inside the loop body — read failure, the missing-key
raise, or an `enhancedExtract` failure — is caught and the file
skipped (`continue`).  Appending an empty list models the skipped
`if not events_df.empty` / `if summary_data` extensions. -/
def procFile (o : Oracle) (geminiKey : String) (useEnhanced : Bool) (numFiles : Nat)
    (st : LoopState) (f : FileEntry) : LoopState :=
  match o.readFile f.path with
  | .error _ => st
  | .ok fileContent =>
    if enhCondB useEnhanced numFiles f then
      if geminiKey == "" then st
      else
        match o.enhancedExtract fileContent f.filename geminiKey with
        | .error _ => st
        | .ok res =>
          { st with
            eventsAcc := st.eventsAcc ++ (if res.1.isEmpty then [] else res.1.map normalizeEvent),
            summariesAcc := st.summariesAcc ++ (if res.2.isEmpty then [] else [withSource res.2 f.filename]),
            processed := st.processed ++ [f.filename] }
    else
      { st with uploads := st.uploads ++ [(fileContent, f.filename)] }

/-- Whether the batch-path block (lines 384-419) runs to the point of
extending `processed_filenames`: `process_uploaded_files` must not
raise, and when extraction is actually invoked (`docs` truthy and a key
configured) it must not raise either. -/
def batchSucceedsB (o : Oracle) (geminiKey : String) (uploads : List (List Nat × String)) : Bool :=
  match o.processUploadedFiles uploads with
  | .error _ => false
  | .ok docs =>
    if (!docs.isEmpty) && (!(geminiKey == "")) then
      isOkE (o.extractEventsAndSummary docs geminiKey)
    else true

/-- Events contributed by the batch block when it succeeds. -/
def batchEvents (o : Oracle) (geminiKey : String) (uploads : List (List Nat × String)) : List NEvent :=
  match o.processUploadedFiles uploads with
  | .error _ => []
  | .ok docs =>
    if (!docs.isEmpty) && (!(geminiKey == "")) then
      match o.extractEventsAndSummary docs geminiKey with
      | .error _ => []
      | .ok res => if res.1.isEmpty then [] else res.1.map normalizeEvent
    else []

/-- Summaries contributed by the batch block when it succeeds. -/
def batchSummaries (o : Oracle) (geminiKey : String) (uploads : List (List Nat × String)) : List Summary :=
  match o.processUploadedFiles uploads with
  | .error _ => []
  | .ok docs =>
    if (!docs.isEmpty) && (!(geminiKey == "")) then
      match o.extractEventsAndSummary docs geminiKey with
      | .error _ => []
      | .ok res => if res.2.isEmpty then [] else [withSource res.2 "batch_processed"]
    else []

/-- The batch-processing block (lines 384-419 of `app.py`): run the
standard pipeline on the accumulated upload set; any exception in the
block leaves the state untouched (the whole batch set is then excluded
from `processed_filenames`). -/
def batchPhase (o : Oracle) (geminiKey : String) (st : LoopState) : LoopState :=
  if st.uploads.isEmpty then st
  else
    match o.processUploadedFiles st.uploads with
    | .error _ => st
    | .ok docs =>
      if (!docs.isEmpty) && (!(geminiKey == "")) then
        match o.extractEventsAndSummary docs geminiKey with
        | .error _ => st
        | .ok res =>
          { st with
            eventsAcc := st.eventsAcc ++ (if res.1.isEmpty then [] else res.1.map normalizeEvent),
            summariesAcc := st.summariesAcc ++ (if res.2.isEmpty then [] else [withSource res.2 "batch_processed"]),
            processed := st.processed ++ st.uploads.map Prod.snd }
      else
        { st with processed := st.processed ++ st.uploads.map Prod.snd }

/-- `for summary in all_summaries: if summary and not combined_summary:
combined = {k: v for k, v in summary.items() if k != "source_file"};
break` — the first non-empty summary wins. -/
def combineSummaries : List Summary → Summary
  | [] => []
  | s :: rest =>
    if s.isEmpty then combineSummaries rest
    else s.filter (fun kv => kv.1 != "source_file")

/-- Truthiness of `event.get('laytime_counts')` on a normalized record:
a missing key or `None` is falsy, the empty string is falsy, every
other (string) value is truthy. -/
def laytimeTruthy (e : NEvent) : Bool :=
  match e.lookup "laytime_counts" with
  | some (some v) => v != ""
  | _ => false

/-- `len(all_events_list) > 0 and any(event.get('laytime_counts') ...)`. -/
def hasLaytimeData (evs : List NEvent) : Bool :=
  (!evs.isEmpty) && evs.any laytimeTruthy

/-- The state after the per-file loop, starting from empty accumulators. -/
def loopStateOf (o : Oracle) (geminiKey : String) (useEnhanced : Bool)
    (files : List FileEntry) : LoopState :=
  files.foldl (procFile o geminiKey useEnhanced files.length) ⟨[], [], [], []⟩

/-- The loop state after the batch-processing block as well. -/
def finalState (o : Oracle) (geminiKey : String) (useEnhanced : Bool)
    (files : List FileEntry) : LoopState :=
  batchPhase o geminiKey (loopStateOf o geminiKey useEnhanced files)

/-- The `processed_filenames` list of a full orchestration run. -/
def processedOf (o : Oracle) (geminiKey : String) (useEnhanced : Bool)
    (files : List FileEntry) : List String :=
  (finalState o geminiKey useEnhanced files).processed

/-- `process_documents_with_sof_pipeline` (lines 313-466 of `app.py`):
runs the per-file loop, the batch block, combines summaries, writes the
result artifact and updates the job.  The outer try/except is modelled
at its representative fallible point, the result-file write: if it
raises, the job is marked FAILED with the error text and a failure
timestamp; otherwise the job is finalized COMPLETED regardless of how
many files were actually processed. -/
def processDocuments (o : Oracle) (geminiKey : String) (now : String) (job : Job)
    (files : List FileEntry) (useEnhanced : Bool) : Job :=
  let st := finalState o geminiKey useEnhanced files
  match o.writeResult with
  | .error e =>
    { job with status := .failed, error := some e, failed_at := some now }
  | .ok _ =>
    { job with
      status := .completed,
      events := some st.eventsAcc,
      summary := some (combineSummaries st.summariesAcc),
      has_laytime_data := some (hasLaytimeData st.eventsAcc),
      processed_at := some now,
      result_file := some (job.job_id ++ "_results.json"),
      processed_files := some st.processed,
      total_files := files.length,
      successful_files := some st.processed.length }

/-! ### Closed forms for the per-file loop

The loop state after the fold is characterized file by file: each file
contributes, independently of the others, at most one entry to the
batch upload set, the enhanced event/summary accumulators, and the
processed list.  `specList` concatenates per-file contributions. -/

/-- Concatenate per-file contributions in file order. -/
def specList {α : Type} (g : FileEntry → List α) : List FileEntry → List α
  | [] => []
  | f :: rest => g f ++ specList g rest

/-- The batch upload set contribution of one file: present iff its read
succeeds and the dispatch condition routes it away from the enhanced
path. -/
def fileUpload (o : Oracle) (useEnhanced : Bool) (numFiles : Nat)
    (f : FileEntry) : List (List Nat × String) :=
  match o.readFile f.path with
  | .error _ => []
  | .ok c => if enhCondB useEnhanced numFiles f then [] else [(c, f.filename)]

/-- The enhanced-path events contribution of one file. -/
def enhFileEvents (o : Oracle) (geminiKey : String) (useEnhanced : Bool) (numFiles : Nat)
    (f : FileEntry) : List NEvent :=
  match o.readFile f.path with
  | .error _ => []
  | .ok c =>
    if enhCondB useEnhanced numFiles f then
      if geminiKey == "" then []
      else
        match o.enhancedExtract c f.filename geminiKey with
        | .error _ => []
        | .ok res => if res.1.isEmpty then [] else res.1.map normalizeEvent
    else []

/-- The enhanced-path summaries contribution of one file. -/
def enhFileSummaries (o : Oracle) (geminiKey : String) (useEnhanced : Bool) (numFiles : Nat)
    (f : FileEntry) : List Summary :=
  match o.readFile f.path with
  | .error _ => []
  | .ok c =>
    if enhCondB useEnhanced numFiles f then
      if geminiKey == "" then []
      else
        match o.enhancedExtract c f.filename geminiKey with
        | .error _ => []
        | .ok res => if res.2.isEmpty then [] else [withSource res.2 f.filename]
    else []

/-- The `processed_filenames` contribution of one file made by the
per-file loop itself (the enhanced path). -/
def enhFileProcessed (o : Oracle) (geminiKey : String) (useEnhanced : Bool) (numFiles : Nat)
    (f : FileEntry) : List String :=
  if enhCondB useEnhanced numFiles f && enhSuccess o geminiKey f then [f.filename] else []

/-- The batch upload set accumulated by a full run of the per-file loop. -/
def batchSetOf (o : Oracle) (useEnhanced : Bool) (files : List FileEntry) :
    List (List Nat × String) :=
  specList (fileUpload o useEnhanced files.length) files

theorem specList_append {α : Type} (g : FileEntry → List α) (l1 l2 : List FileEntry) :
    specList g (l1 ++ l2) = specList g l1 ++ specList g l2 := by
  induction l1 with
  | nil => simp [specList]
  | cons f rest ih => simp [specList, ih]

theorem mem_specList {α : Type} (g : FileEntry → List α) (files : List FileEntry) (x : α) :
    x ∈ specList g files ↔ ∃ f ∈ files, x ∈ g f := by
  induction files with
  | nil => simp [specList]
  | cons f rest ih => simp [specList, ih]

/-- Closed form of the per-file loop: starting from any state, the fold
appends each file's independent contributions. -/
theorem foldl_procFile_char (o : Oracle) (geminiKey : String) (useEnhanced : Bool)
    (numFiles : Nat) (files : List FileEntry) (st : LoopState) :
    files.foldl (procFile o geminiKey useEnhanced numFiles) st =
      { uploads := st.uploads ++ specList (fileUpload o useEnhanced numFiles) files,
        eventsAcc := st.eventsAcc ++ specList (enhFileEvents o geminiKey useEnhanced numFiles) files,
        summariesAcc := st.summariesAcc ++ specList (enhFileSummaries o geminiKey useEnhanced numFiles) files,
        processed := st.processed ++ specList (enhFileProcessed o geminiKey useEnhanced numFiles) files } := by
  induction files generalizing st with
  | nil => simp [specList]
  | cons f rest ih =>
    rw [List.foldl_cons, ih]
    rcases hr : o.readFile f.path with e | c
    · simp [procFile, hr, specList, fileUpload, enhFileEvents, enhFileSummaries,
        enhFileProcessed, enhSuccess]
    · cases hc : enhCondB useEnhanced numFiles f
      · simp [procFile, hr, hc, specList, fileUpload, enhFileEvents, enhFileSummaries,
          enhFileProcessed, enhSuccess]
      · cases hk : (geminiKey == "")
        · rcases he : o.enhancedExtract c f.filename geminiKey with e | res
          · simp [procFile, hr, hc, hk, he, specList, fileUpload, enhFileEvents,
              enhFileSummaries, enhFileProcessed, enhSuccess, isOkE]
          · simp [procFile, hr, hc, hk, he, specList, fileUpload, enhFileEvents,
              enhFileSummaries, enhFileProcessed, enhSuccess, isOkE]
        · simp [procFile, hr, hc, hk, specList, fileUpload, enhFileEvents,
            enhFileSummaries, enhFileProcessed, enhSuccess]

/-- Closed form of the loop state of a run. -/
theorem loopStateOf_char (o : Oracle) (geminiKey : String) (useEnhanced : Bool)
    (files : List FileEntry) :
    loopStateOf o geminiKey useEnhanced files =
      { uploads := batchSetOf o useEnhanced files,
        eventsAcc := specList (enhFileEvents o geminiKey useEnhanced files.length) files,
        summariesAcc := specList (enhFileSummaries o geminiKey useEnhanced files.length) files,
        processed := specList (enhFileProcessed o geminiKey useEnhanced files.length) files } := by
  rw [loopStateOf, foldl_procFile_char]
  simp [batchSetOf]

/-- Closed form of the batch block: it extends the accumulators by the
batch contributions and, exactly when the batch call chain succeeds,
appends the whole upload set's filenames to the processed list. -/
theorem batchPhase_char (o : Oracle) (geminiKey : String) (st : LoopState) :
    batchPhase o geminiKey st =
      { st with
        eventsAcc := st.eventsAcc ++
          (if st.uploads.isEmpty then [] else batchEvents o geminiKey st.uploads),
        summariesAcc := st.summariesAcc ++
          (if st.uploads.isEmpty then [] else batchSummaries o geminiKey st.uploads),
        processed := st.processed ++
          (if (!st.uploads.isEmpty) && batchSucceedsB o geminiKey st.uploads then
            st.uploads.map Prod.snd else []) } := by
  cases hu : st.uploads.isEmpty
  · rcases hp : o.processUploadedFiles st.uploads with e | docs
    · simp [batchPhase, hu, hp, batchEvents, batchSummaries, batchSucceedsB]
    · cases hd : (!docs.isEmpty) && (!(geminiKey == ""))
      · simp [batchPhase, hu, hp, hd, batchEvents, batchSummaries, batchSucceedsB]
      · rcases he : o.extractEventsAndSummary docs geminiKey with e | res
        · simp [batchPhase, hu, hp, hd, he, batchEvents, batchSummaries, batchSucceedsB, isOkE]
        · simp [batchPhase, hu, hp, hd, he, batchEvents, batchSummaries, batchSucceedsB, isOkE]
  · simp [batchPhase, hu]

/-! ### Upload dispatcher (`upload_documents`, lines 468-546)

The validation loop checks each file's extension, reads its bytes,
checks its size, and immediately writes the bytes to the upload
directory before moving to the next file.  The outcome records, in
order: every (path, bytes) pair actually written, the job record
created (if any), the HTTP-level response, and the background task
scheduled (if any). -/

/-- One uploaded file as received by the endpoint. -/
structure UploadFileIn where
  filename : String
  content : List Nat
deriving DecidableEq, Repr

/-- The distinct `HTTPException(400, ...)` raises of the upload
endpoints, keeping the data each detail string interpolates (the exact
supported-types suffix of the unsupported-type message joins a Python
set, whose order is unspecified, so details are kept structured). -/
inductive UploadErr where
  | noFiles
  | unsupportedType (ext fname : String)
  | fileTooLarge (fname : String) (limit : Nat)
  | maxBatchSize
deriving DecidableEq, Repr

/-- The JSON body returned by `upload_documents` on success. -/
structure UploadResp where
  message : String
  job_id : String
  filenames : List String
  total_files : Nat
  enhanced_processing : Bool
deriving DecidableEq, Repr

/-- Full observable outcome of a call to `upload_documents`. -/
structure UploadResult where
  persisted : List (String × List Nat)
  job : Option Job
  response : Except UploadErr UploadResp
  scheduled : Option (List FileEntry × Bool)
deriving Repr

/-- The allow-list of line 482 of `app.py`. -/
def allowedExtensions : List String :=
  [".pdf", ".docx", ".doc", ".txt", ".png", ".jpg", ".jpeg", ".tiff", ".bmp", ".webp"]

/-- Accumulated outcome of the validation/persist loop. -/
structure ValLoopOut where
  persisted : List (String × List Nat)
  names : List String
  entries : List FileEntry
  err : Option UploadErr
deriving Repr

/-- The validation loop of `upload_documents` (lines 487-511): on the
first violation the whole submission is aborted — but the files already
validated in earlier iterations have been written to disk. -/
def uploadLoop (maxSize : Nat) (jobId : String) : Nat → List UploadFileIn → ValLoopOut
  | _, [] => ⟨[], [], [], none⟩
  | i, f :: rest =>
    let ext := "." ++ fileExtension f.filename
    if !(allowedExtensions.contains ext) then
      ⟨[], [], [], some (.unsupportedType ext f.filename)⟩
    else if f.content.length > maxSize then
      ⟨[], [], [], some (.fileTooLarge f.filename maxSize)⟩
    else
      let path := jobId ++ "_" ++ toString i ++ "_" ++ f.filename
      let out := uploadLoop maxSize jobId (i + 1) rest
      ⟨(path, f.content) :: out.persisted, f.filename :: out.names,
        ⟨path, f.filename⟩ :: out.entries, out.err⟩

/-- `upload_documents`: the job id is generated before the loop (a
parameter here, as is the creation timestamp); the job record and the
background task exist only if every file validates. -/
def uploadDocuments (maxSize : Nat) (jobId createdAt : String)
    (files : List UploadFileIn) (useEnhanced : Bool) : UploadResult :=
  if files.isEmpty then ⟨[], none, .error .noFiles, none⟩
  else
    let out := uploadLoop maxSize jobId 0 files
    match out.err with
    | some e => ⟨out.persisted, none, .error e, none⟩
    | none =>
      let job : Job :=
        { job_id := jobId, status := .processing, user := "demo",
          filenames := out.names, total_files := out.names.length,
          use_enhanced_processing := useEnhanced, created_at := createdAt }
      ⟨out.persisted, some job,
        .ok ⟨toString out.names.length ++ " file(s) uploaded successfully",
          jobId, out.names, out.names.length, useEnhanced⟩,
        some (out.entries, useEnhanced)⟩

/-- `upload_single_document` (lines 549-563): a literal delegation to
`upload_documents` with the one-element file list. -/
def uploadSingleDocument (maxSize : Nat) (jobId createdAt : String)
    (file : UploadFileIn) (useEnhanced : Bool) : UploadResult :=
  uploadDocuments maxSize jobId createdAt [file] useEnhanced

/-- The JSON body returned by `upload_batch_documents` on success:
the `upload_documents` body plus batch metadata. -/
structure BatchResp where
  base : UploadResp
  batch_name : Option String
  batch_size : Nat
deriving DecidableEq, Repr

/-- Full observable outcome of a call to `upload_batch_documents`. -/
structure BatchUploadResult where
  persisted : List (String × List Nat)
  job : Option Job
  response : Except UploadErr BatchResp
  scheduled : Option (List FileEntry × Bool)
deriving Repr

/-- Python truthiness of the optional `batch_name` form field
(`if batch_name:`): absent and empty string are falsy. -/
def truthyName : Option String → Bool
  | some s => s != ""
  | none => false

/-- `upload_batch_documents` (lines 565-606): its own empty check, the
10-file cap, then the shared `upload_documents` call, then the optional
batch label written onto the created job. -/
def uploadBatchDocuments (maxSize : Nat) (jobId createdAt : String)
    (files : List UploadFileIn) (useEnhanced : Bool)
    (batchName : Option String) : BatchUploadResult :=
  if files.isEmpty then ⟨[], none, .error .noFiles, none⟩
  else if files.length > 10 then ⟨[], none, .error .maxBatchSize, none⟩
  else
    let r := uploadDocuments maxSize jobId createdAt files useEnhanced
    match r.response with
    | .error e => ⟨r.persisted, r.job, .error e, r.scheduled⟩
    | .ok resp =>
      let job' := if truthyName batchName then
          r.job.map (fun jb => { jb with batch_name := batchName })
        else r.job
      ⟨r.persisted, job', .ok ⟨resp, batchName, files.length⟩, r.scheduled⟩

/-- The additive batch decoration described by the spec: take a
`upload_documents` outcome and, on success, attach the optional label
to the job and wrap the response with batch metadata. -/
def attachBatchMeta (r : UploadResult) (batchName : Option String)
    (batchSize : Nat) : BatchUploadResult :=
  match r.response with
  | .error e => ⟨r.persisted, r.job, .error e, r.scheduled⟩
  | .ok resp =>
    ⟨r.persisted,
      (if truthyName batchName then
        r.job.map (fun jb => { jb with batch_name := batchName })
      else r.job),
      .ok ⟨resp, batchName, batchSize⟩, r.scheduled⟩

/-- Whether a single file passes both upload validations. -/
def fileOk (maxSize : Nat) (f : UploadFileIn) : Bool :=
  allowedExtensions.contains ("." ++ fileExtension f.filename) &&
    !(f.content.length > maxSize)

/-- The (path, bytes) entries written for a list of files starting at a
given per-file index. -/
def persistEntries (jobId : String) : Nat → List UploadFileIn → List (String × List Nat)
  | _, [] => []
  | i, f :: rest =>
    (jobId ++ "_" ++ toString i ++ "_" ++ f.filename, f.content) ::
      persistEntries jobId (i + 1) rest

/-- The error raised for an offending file: the extension check fires
first, then the size check. -/
def offenseOf (maxSize : Nat) (f : UploadFileIn) : UploadErr :=
  if allowedExtensions.contains ("." ++ fileExtension f.filename) then
    .fileTooLarge f.filename maxSize
  else
    .unsupportedType ("." ++ fileExtension f.filename) f.filename

/-! ### Export transformer (`export_data`, lines 713-843)

A DataFrame is modelled by its column list (union of record keys in
order of first appearance, as `pd.DataFrame(list_of_dicts)` builds it)
together with its rows; a missing key in a row reads as `none` (NaN). -/

/-- A minimal DataFrame: columns plus dict-shaped rows. -/
structure DF where
  cols : List String
  rows : List NEvent
deriving DecidableEq, Repr

/-- Column union in order of first appearance. -/
def colsUnion (evs : List NEvent) : List String :=
  evs.foldl (fun acc e =>
    e.foldl (fun acc2 kv => if acc2.contains kv.1 then acc2 else acc2 ++ [kv.1]) acc) []

/-- `pd.DataFrame(events)`. -/
def dfOfEvents (evs : List NEvent) : DF :=
  ⟨colsUnion evs, evs⟩

/-- `events_df.drop(col, axis=1)` guarded by `if col in events_df.columns`. -/
def dropColumn (df : DF) (c : String) : DF :=
  if df.cols.contains c then
    ⟨df.cols.filter (fun x => x != c), df.rows.map (fun r => r.filter (fun kv => kv.1 != c))⟩
  else df

/-- The denylist of line 772 of `app.py`. -/
def columnsToRemove : List String :=
  ["start", "end", "duration", "laytime_utilization_%", "event", "date",
    "description", "raw_line", "filename"]

/-- The canonical ordered column set of line 780 of `app.py`. -/
def preferredColumns : List String :=
  ["Event", "start_time_iso", "end_time_iso", "Date", "Duration", "Laytime",
    "Raw Line", "Filename"]

/-- The external laytime calculator used on the export path
(`calculate_laytime(summary, events_df)` returning
`laytime_result.events_df`); it may raise. -/
abbrev LaytimeOracle := Summary → DF → Except String DF

/-- `s.lower()` over the character list of the string. -/
def lowerStr (s : String) : String :=
  String.mk (s.data.map Char.toLower)

/-- `s[:n]` over the character list of the string. -/
def takeStr (n : Nat) (s : String) : String :=
  String.mk (s.data.take n)

/-- Event source selection (lines 731-737): a non-empty override list
from the request body wins, otherwise the job's stored events. -/
def selectEvents (job : Job) (overrideEvents : List NEvent) : List NEvent :=
  if !overrideEvents.isEmpty then overrideEvents else job.events.getD []

/-- The laytime recomputation step (lines 748-764): attempted only when
the stored summary is truthy and the frame is non-empty; a failure is
non-fatal and leaves the original frame. -/
def augmentedDF (lay : LaytimeOracle) (summary : Summary) (df : DF) : DF :=
  if (!summary.isEmpty) && (!df.rows.isEmpty) then
    match lay summary df with
    | .ok df' => df'
    | .error _ => df
  else df

/-- The column normalization pipeline (lines 766-782): drop
`laytime_counts`, drop the denylist columns in order. -/
def exportDF (lay : LaytimeOracle) (job : Job) (overrideEvents : List NEvent) : DF :=
  let df0 := dfOfEvents (selectEvents job overrideEvents)
  let df1 := augmentedDF lay (job.summary.getD []) df0
  let df2 := dropColumn df1 "laytime_counts"
  columnsToRemove.foldl dropColumn df2

/-- The final projected column list (line 781). -/
def finalColsOf (lay : LaytimeOracle) (job : Job) (overrideEvents : List NEvent) : List String :=
  preferredColumns.filter (fun c => (exportDF lay job overrideEvents).cols.contains c)

/-- Cell read of a projected row: a missing key is NaN. -/
def cellValue (r : NEvent) (c : String) : Option String :=
  match r.lookup c with
  | some v => v
  | none => none

/-- `events_df[final_columns]` materialized row by row. -/
def projectRows (rows : List NEvent) (finalCols : List String) :
    List (List (String × Option String)) :=
  rows.map (fun r => finalCols.map (fun c => (c, cellValue r c)))

/-- The JSON export cleaning (lines 813-826): NaN, `None` and the empty
string become an explicit null; other values are (already) strings. -/
def cleanJsonValue : Option String → Option String
  | none => none
  | some v => if v == "" then none else some v

/-- An export artifact written to the results directory. -/
structure Artifact where
  name : String
  cols : List String
  rows : List (List (String × Option String))
deriving DecidableEq, Repr

/-- An HTTP error response (status code and detail). -/
structure HErr where
  code : Nat
  detail : String
deriving DecidableEq, Repr

/-- Observable outcome of `export_data`: the artifact written (if any),
the response (a download filename on success), and the job record as
left in the store afterwards. -/
structure ExportOutcome where
  artifact : Option Artifact
  response : Except HErr String
  jobAfter : Option Job
deriving Repr

/-- `export_data` (lines 713-843).  The final format check raises
`HTTPException(400, "Invalid export format. Use \x27csv\x27 or
\x27json\x27")` from inside the `try:` block, and the function's only
handler is `except Exception`, which catches it (FastAPI's
`HTTPException` subclasses `Exception`) and re-raises
`HTTPException(500, "Export failed: " + str(e))` — so an unsupported
format surfaces to the caller as a 500, not a 400.  `str(e)` follows
Starlette's `HTTPException.__str__`, i.e. `"<code>: <detail>"`. -/
def exportData (lay : LaytimeOracle) (jobLookup : Option Job)
    (overrideEvents : List NEvent) (exportFormat : String) (jobId : String) :
    ExportOutcome :=
  match jobLookup with
  | none => ⟨none, .error ⟨404, "Job not found"⟩, none⟩
  | some job =>
    if job.status != JStatus.completed then
      ⟨none, .error ⟨400, "Job not completed yet"⟩, some job⟩
    else
      let events := selectEvents job overrideEvents
      if events.isEmpty then
        ⟨none, .error ⟨404, "No events found"⟩, some job⟩
      else
        let df := exportDF lay job overrideEvents
        let finalCols := finalColsOf lay job overrideEvents
        let outRows := projectRows df.rows finalCols
        if lowerStr exportFormat == "csv" then
          ⟨some ⟨jobId ++ "_export.csv", finalCols, outRows⟩,
            .ok ("sof_events_" ++ takeStr 8 jobId ++ ".csv"), some job⟩
        else if lowerStr exportFormat == "json" then
          ⟨some ⟨jobId ++ "_export.json", finalCols,
              outRows.map (fun r => r.map (fun kv => (kv.1, cleanJsonValue kv.2)))⟩,
            .ok ("sof_events_" ++ takeStr 8 jobId ++ ".json"), some job⟩
        else
          ⟨none,
            .error ⟨500,
              "Export failed: 400: Invalid export format. Use \x27csv\x27 or \x27json\x27"⟩,
            some job⟩

/-! ### Supporting lemmas -/

theorem specList_eq_nil {α : Type} {g : FileEntry → List α} {files : List FileEntry}
    (h : ∀ f ∈ files, g f = []) : specList g files = [] := by
  induction files with
  | nil => rfl
  | cons f rest ih =>
    simp only [specList, h f (by simp)]
    exact ih (fun f2 h2 => h f2 (by simp [h2]))

theorem mem_enhFileProcessed {o : Oracle} {key : String} {enh : Bool} {n : Nat}
    {g : FileEntry} {x : String} :
    x ∈ enhFileProcessed o key enh n g ↔
      enhCondB enh n g = true ∧ enhSuccess o key g = true ∧ x = g.filename := by
  unfold enhFileProcessed
  cases hc : enhCondB enh n g <;> cases hs : enhSuccess o key g <;> simp [hc, hs]

theorem mem_fileUpload {o : Oracle} {enh : Bool} {n : Nat} {g : FileEntry}
    {p : List Nat × String} :
    p ∈ fileUpload o enh n g ↔
      ∃ c, o.readFile g.path = .ok c ∧ enhCondB enh n g = false ∧ p = (c, g.filename) := by
  unfold fileUpload
  rcases hr : o.readFile g.path with e | c
  · simp [hr]
  · cases hc : enhCondB enh n g <;> simp [hr, hc]

theorem enhSuccess_readOk {o : Oracle} {key : String} {g : FileEntry}
    (h : enhSuccess o key g = true) : readOkB o g = true := by
  unfold enhSuccess at h
  unfold readOkB isOkE
  rcases hr : o.readFile g.path with e | c
  · rw [hr] at h; exact absurd h (by simp)
  · rfl

/-- Closed form of the final `processed_filenames` of a run. -/
theorem processed_char (o : Oracle) (key : String) (enh : Bool) (files : List FileEntry) :
    (finalState o key enh files).processed =
      specList (enhFileProcessed o key enh files.length) files ++
        (if (!(batchSetOf o enh files).isEmpty) &&
            batchSucceedsB o key (batchSetOf o enh files) then
          (batchSetOf o enh files).map Prod.snd else []) := by
  rw [finalState, loopStateOf_char, batchPhase_char]

theorem specList_len_le (o : Oracle) (key : String) (enh : Bool) (n : Nat)
    (files : List FileEntry) :
    (specList (enhFileProcessed o key enh n) files).length +
      (specList (fileUpload o enh n) files).length ≤ files.length := by
  induction files with
  | nil => simp [specList]
  | cons f rest ih =>
    have h1 : (enhFileProcessed o key enh n f).length + (fileUpload o enh n f).length ≤ 1 := by
      rcases hr : o.readFile f.path with e | c
      · have hs : enhSuccess o key f = false := by unfold enhSuccess; rw [hr]
        simp [enhFileProcessed, fileUpload, hr, hs]
      · cases hc : enhCondB enh n f
        · simp [enhFileProcessed, fileUpload, hr, hc]
        · cases hs : enhSuccess o key f <;> simp [enhFileProcessed, fileUpload, hr, hc, hs]
    simp only [specList, List.length_append, List.length_cons]
    omega

/-- The processed-file count never exceeds the submitted-file count. -/
theorem processed_length_le (o : Oracle) (key : String) (enh : Bool)
    (files : List FileEntry) :
    (finalState o key enh files).processed.length ≤ files.length := by
  rw [processed_char]
  have h := specList_len_le o key enh files.length files
  have h2 : (batchSetOf o enh files).length =
      (specList (fileUpload o enh files.length) files).length := rfl
  simp only [List.length_append]
  split
  · simp only [List.length_map]
    omega
  · simp only [List.length_nil]
    omega

/-! ### C1: terminal status policy of the orchestrator -/

/-- C1: whenever the orchestration routine runs to the end (the
finalization write does not raise) the job is set to COMPLETED — no
per-file or batch outcome can prevent this; the job is set to FAILED
exactly when an exception escapes the routine, and then the error text
and a failure timestamp are recorded. -/
theorem c1_terminal_status (o : Oracle) (geminiKey now : String) (job : Job)
    (files : List FileEntry) (useEnhanced : Bool) :
    (o.writeResult = .ok () →
      (processDocuments o geminiKey now job files useEnhanced).status = .completed)
    ∧ (∀ e, o.writeResult = .error e →
      (processDocuments o geminiKey now job files useEnhanced).status = .failed
      ∧ (processDocuments o geminiKey now job files useEnhanced).error = some e
      ∧ (processDocuments o geminiKey now job files useEnhanced).failed_at = some now) := by
  constructor
  · intro hw
    simp [processDocuments, hw]
  · intro e hw
    simp [processDocuments, hw]

/-- Oracle on which every per-file operation fails but the finalization
write succeeds. -/
def oAllFail : Oracle :=
  { readFile := fun _ => .error "read failed",
    enhancedExtract := fun _ _ _ => .error "enhanced failed",
    processUploadedFiles := fun _ => .ok [],
    extractEventsAndSummary := fun _ _ => .error "extract failed",
    writeResult := .ok () }

/-- Oracle whose finalization write raises. -/
def oWriteFail : Oracle :=
  { oAllFail with writeResult := .error "disk full" }

/-- A freshly created job record. -/
def job0 : Job :=
  { job_id := "j0", status := .processing, user := "demo", filenames := ["a.pdf"],
    total_files := 1, use_enhanced_processing := false, created_at := "t0" }

theorem c1_terminal_status_witness :
    (processDocuments oAllFail "" "t1" job0 [⟨"p0", "a.pdf"⟩] false).status = .completed
    ∧ (processDocuments oAllFail "" "t1" job0 [⟨"p0", "a.pdf"⟩] false).successful_files = some 0
    ∧ (processDocuments oWriteFail "" "t1" job0 [⟨"p0", "a.pdf"⟩] false).status = .failed
    ∧ (processDocuments oWriteFail "" "t1" job0 [⟨"p0", "a.pdf"⟩] false).error = some "disk full"
    ∧ (processDocuments oWriteFail "" "t1" job0 [⟨"p0", "a.pdf"⟩] false).failed_at = some "t1" := by
  refine ⟨(c1_terminal_status oAllFail "" "t1" job0 [⟨"p0", "a.pdf"⟩] false).1 rfl, rfl, ?_⟩
  have h := (c1_terminal_status oWriteFail "" "t1" job0 [⟨"p0", "a.pdf"⟩] false).2
    "disk full" rfl
  exact ⟨h.1, h.2.1, h.2.2⟩

/-! ### C4: per-file dispatch rule -/

/-- C4: a readable file takes the single-document enhanced path — i.e.
stays out of the batch set handed to the standard multi-document
pipeline — exactly when the enhanced flag is set, its extension is pdf
(in the code's sense: lowercased last dot-component), and the
submission has exactly one file; in every other case it is accumulated
into the batch set.  The last conjunct grounds `batchSetOf` as the
upload set actually accumulated by the run's per-file loop. -/
theorem c4_dispatch_rule (o : Oracle) (geminiKey : String) (useEnhanced : Bool)
    (files : List FileEntry) (f : FileEntry) (hf : f ∈ files)
    (hr : readOkB o f = true) :
    ((useEnhanced = true ∧ fileExtension f.filename = "pdf" ∧ files.length = 1) →
      f.filename ∉ (batchSetOf o useEnhanced files).map Prod.snd)
    ∧ (¬(useEnhanced = true ∧ fileExtension f.filename = "pdf" ∧ files.length = 1) →
      f.filename ∈ (batchSetOf o useEnhanced files).map Prod.snd)
    ∧ (loopStateOf o geminiKey useEnhanced files).uploads = batchSetOf o useEnhanced files := by
  have hcond : ∀ n, enhCondB useEnhanced n f = true ↔
      (useEnhanced = true ∧ fileExtension f.filename = "pdf" ∧ n = 1) := by
    intro n
    simp [enhCondB, Bool.and_eq_true, beq_iff_eq, and_assoc]
  obtain ⟨c, hc⟩ : ∃ c, o.readFile f.path = .ok c := by
    unfold readOkB isOkE at hr
    rcases hrf : o.readFile f.path with e | c
    · rw [hrf] at hr; exact absurd hr (by simp)
    · exact ⟨c, rfl⟩
  refine ⟨?_, ?_, ?_⟩
  · rintro ⟨he, hp, h1⟩
    obtain ⟨a, ha⟩ := List.length_eq_one.mp h1
    have hfa : f = a := by
      rw [ha] at hf
      simpa using hf
    subst hfa
    have hcb : enhCondB useEnhanced files.length f = true :=
      (hcond files.length).mpr ⟨he, hp, h1⟩
    rw [batchSetOf, ha]
    simp [specList, fileUpload, hc, h1 ▸ hcb]
  · intro hn
    have hcb : enhCondB useEnhanced files.length f = false := by
      cases hcb : enhCondB useEnhanced files.length f
      · rfl
      · exact absurd ((hcond files.length).mp hcb) hn
    have hmem : (c, f.filename) ∈ batchSetOf o useEnhanced files := by
      rw [batchSetOf, mem_specList]
      exact ⟨f, hf, mem_fileUpload.mpr ⟨c, hc, hcb, rfl⟩⟩
    exact List.mem_map.mpr ⟨(c, f.filename), hmem, rfl⟩
  · rw [loopStateOf_char]

/-- Oracle whose reads succeed and whose batch pipeline succeeds. -/
def oReadOk : Oracle :=
  { readFile := fun _ => .ok [7],
    enhancedExtract := fun _ _ _ => .ok ([[("Event", .s "Arrival")]], [("port", "X")]),
    processUploadedFiles := fun ups => .ok (ups.map (fun _ => 1)),
    extractEventsAndSummary := fun _ _ => .ok ([], []),
    writeResult := .ok () }

theorem c4_dispatch_rule_witness :
    ("a.pdf" ∉ (batchSetOf oReadOk true [⟨"p0", "a.pdf"⟩]).map Prod.snd)
    ∧ ("b.pdf" ∈ (batchSetOf oReadOk true [⟨"p0", "b.pdf"⟩, ⟨"p1", "c.pdf"⟩]).map Prod.snd) := by
  constructor
  · exact (c4_dispatch_rule oReadOk "k" true [⟨"p0", "a.pdf"⟩] ⟨"p0", "a.pdf"⟩
      (by simp) (by rfl)).1 ⟨rfl, by decide, rfl⟩
  · exact (c4_dispatch_rule oReadOk "k" true [⟨"p0", "b.pdf"⟩, ⟨"p1", "c.pdf"⟩]
      ⟨"p0", "b.pdf"⟩ (by simp) (by rfl)).2.1 (by rintro ⟨-, -, h⟩; exact absurd h (by decide))

/-! ### C5: successful_files ≤ total_files -/

/-- C5: the invariant `successful_files ≤ total_files` (with an absent
count reading as 0, as the status/list endpoints read it) holds for the
job record created by the upload dispatcher and is preserved by the
orchestrator's single terminal update, on both the COMPLETED and the
FAILED path. -/
theorem c5_successful_le_total (maxSize : Nat) (jobId createdAt : String)
    (ufiles : List UploadFileIn) (ue : Bool) (o : Oracle) (geminiKey now : String)
    (job : Job) (files : List FileEntry) (useEnhanced : Bool) :
    (∀ j, (uploadDocuments maxSize jobId createdAt ufiles ue).job = some j →
      j.successful_files.getD 0 ≤ j.total_files)
    ∧ (job.successful_files.getD 0 ≤ job.total_files →
      (processDocuments o geminiKey now job files useEnhanced).successful_files.getD 0 ≤
        (processDocuments o geminiKey now job files useEnhanced).total_files) := by
  constructor
  · intro j hj
    unfold uploadDocuments at hj
    by_cases he : ufiles.isEmpty
    · simp [he] at hj
    · simp only [he, Bool.false_eq_true, if_false] at hj
      split at hj
      · simp at hj
      · simp only [Option.some.injEq] at hj
        subst hj
        simp
  · intro h
    rcases hw : o.writeResult with e | u
    · simpa [processDocuments, hw] using h
    · have hlen := processed_length_le o geminiKey useEnhanced files
      simpa [processDocuments, hw] using hlen

theorem c5_successful_le_total_witness :
    ((uploadDocuments 100 "j1" "t0" [⟨"a.pdf", [1]⟩] false).job.map
      (fun j => j.successful_files.getD 0 ≤ j.total_files) = some True)
    ∧ (processDocuments oAllFail "" "t1" job0 [⟨"p0", "a.pdf"⟩] false).successful_files.getD 0 ≤
        (processDocuments oAllFail "" "t1" job0 [⟨"p0", "a.pdf"⟩] false).total_files := by
  constructor
  · have h := (c5_successful_le_total 100 "j1" "t0" [⟨"a.pdf", [1]⟩] false oAllFail ""
      "t1" job0 [⟨"p0", "a.pdf"⟩] false).1
    rcases hj : (uploadDocuments 100 "j1" "t0" [⟨"a.pdf", [1]⟩] false).job with _ | j
    · exact absurd hj (by decide)
    · exact congrArg some (eq_true (h j hj))
  · exact (c5_successful_le_total 100 "j1" "t0" [⟨"a.pdf", [1]⟩] false oAllFail ""
      "t1" job0 [⟨"p0", "a.pdf"⟩] false).2 (by decide)

/-! ### C10: no extraction capability token, pure batch run -/

theorem batchSet_map_snd (o : Oracle) (enh : Bool) (n : Nat) (files : List FileEntry)
    (hread : ∀ f ∈ files, readOkB o f = true)
    (hcond : ∀ f ∈ files, enhCondB enh n f = false) :
    (specList (fileUpload o enh n) files).map Prod.snd = files.map FileEntry.filename := by
  induction files with
  | nil => rfl
  | cons f rest ih =>
    obtain ⟨c, hc⟩ : ∃ c, o.readFile f.path = .ok c := by
      have hr := hread f (by simp)
      unfold readOkB isOkE at hr
      rcases hrf : o.readFile f.path with e | c
      · rw [hrf] at hr; exact absurd hr (by simp)
      · exact ⟨c, rfl⟩
    have ihr := ih (fun g hg => hread g (by simp [hg])) (fun g hg => hcond g (by simp [hg]))
    simp [specList, fileUpload, hc, hcond f (by simp), ihr]

/-- C10: with no Google API key configured and every file routed to the
batch path, a run in which all reads and the document-preparation call
succeed appends every batch file to `processed_filenames` without
consulting either extraction oracle: the job completes with
`successful_files = total_files`, an empty events list and an empty
summary.  (The right-hand side mentions neither `enhancedExtract` nor
`extractEventsAndSummary`: no extraction is attempted.) -/
theorem c10_no_key_batch_completion (o : Oracle) (now : String) (job : Job)
    (files : List FileEntry) (useEnhanced : Bool)
    (hread : ∀ f ∈ files, readOkB o f = true)
    (hcond : ∀ f ∈ files, enhCondB useEnhanced files.length f = false)
    (hbatch : isOkE (o.processUploadedFiles (batchSetOf o useEnhanced files)) = true)
    (hwrite : o.writeResult = .ok ()) :
    processDocuments o "" now job files useEnhanced =
      { job with
        status := .completed, events := some [], summary := some [],
        has_laytime_data := some false, processed_at := some now,
        result_file := some (job.job_id ++ "_results.json"),
        processed_files := some (files.map FileEntry.filename),
        total_files := files.length,
        successful_files := some files.length } := by
  have hev : specList (enhFileEvents o "" useEnhanced files.length) files = [] :=
    specList_eq_nil (fun f hf => by
      rcases hr : o.readFile f.path with e | c <;>
        simp [enhFileEvents, hr, hcond f hf])
  have hsum : specList (enhFileSummaries o "" useEnhanced files.length) files = [] :=
    specList_eq_nil (fun f hf => by
      rcases hr : o.readFile f.path with e | c <;>
        simp [enhFileSummaries, hr, hcond f hf])
  have hproc : specList (enhFileProcessed o "" useEnhanced files.length) files = [] :=
    specList_eq_nil (fun f hf => by simp [enhFileProcessed, hcond f hf])
  have hmap : (batchSetOf o useEnhanced files).map Prod.snd = files.map FileEntry.filename :=
    batchSet_map_snd o useEnhanced files.length files hread hcond
  obtain ⟨docs, hp⟩ : ∃ docs,
      o.processUploadedFiles (batchSetOf o useEnhanced files) = .ok docs := by
    rcases hpf : o.processUploadedFiles (batchSetOf o useEnhanced files) with e | docs
    · rw [hpf, isOkE] at hbatch
      exact absurd hbatch (by simp)
    · exact ⟨docs, rfl⟩
  have hbs : batchSucceedsB o "" (batchSetOf o useEnhanced files) = true := by
    simp [batchSucceedsB, hp]
  have hbe : batchEvents o "" (batchSetOf o useEnhanced files) = [] := by
    simp [batchEvents, hp]
  have hbsum : batchSummaries o "" (batchSetOf o useEnhanced files) = [] := by
    simp [batchSummaries, hp]
  have hst : finalState o "" useEnhanced files =
      { uploads := batchSetOf o useEnhanced files, eventsAcc := [], summariesAcc := [],
        processed := files.map FileEntry.filename } := by
    rw [finalState, loopStateOf_char, batchPhase_char]
    by_cases hu : (batchSetOf o useEnhanced files).isEmpty
    · have hnil : batchSetOf o useEnhanced files = [] := by
        simpa [List.isEmpty_iff] using hu
      have hfn : files.map FileEntry.filename = [] := by
        rw [← hmap, hnil]; rfl
      simp [hev, hsum, hproc, hu, hnil, hfn]
    · simp [hev, hsum, hproc, hu, hbs, hbe, hbsum, hmap]
  rw [processDocuments]
  rw [hst, hwrite]
  simp [combineSummaries, hasLaytimeData, List.length_map]

theorem c10_no_key_batch_completion_witness :
    processDocuments oReadOk "" "t1" job0 [⟨"p0", "b.pdf"⟩, ⟨"p1", "c.pdf"⟩] true =
      { job0 with
        status := .completed, events := some [], summary := some [],
        has_laytime_data := some false, processed_at := some "t1",
        result_file := some ("j0" ++ "_results.json"),
        processed_files := some ["b.pdf", "c.pdf"],
        total_files := 2,
        successful_files := some 2 } :=
  c10_no_key_batch_completion oReadOk "t1" job0 [⟨"p0", "b.pdf"⟩, ⟨"p1", "c.pdf"⟩] true
    (by decide) (by decide) (by decide) rfl

/-! ### C2: per-file and batch-level failure isolation -/

/-- C2: (1) a file whose read fails, or that enters the enhanced path
and whose extraction fails (including the missing-key raise), is
excluded from `processed_filenames`; (2) enhanced-path successes are
always included, independently of any other file's outcome; (3) when
the batch-level call chain fails, every batch-routed file is excluded
while enhanced successes remain; (4) when it succeeds, every
batch-routed file is included; (5) none of these outcomes affects the
terminal status: the job still completes whenever the finalization
write succeeds. -/
theorem c2_failure_isolation (o : Oracle) (geminiKey now : String) (job : Job)
    (useEnhanced : Bool) (files : List FileEntry)
    (hnd : (files.map FileEntry.filename).Nodup) :
    (∀ f ∈ files,
      (readOkB o f = false ∨
        (enhCondB useEnhanced files.length f = true ∧ enhSuccess o geminiKey f = false)) →
      f.filename ∉ processedOf o geminiKey useEnhanced files)
    ∧ (∀ f ∈ files, enhCondB useEnhanced files.length f = true →
        enhSuccess o geminiKey f = true →
        f.filename ∈ processedOf o geminiKey useEnhanced files)
    ∧ (batchSucceedsB o geminiKey (batchSetOf o useEnhanced files) = false →
        ∀ f ∈ files, readOkB o f = true → enhCondB useEnhanced files.length f = false →
          f.filename ∉ processedOf o geminiKey useEnhanced files)
    ∧ (batchSucceedsB o geminiKey (batchSetOf o useEnhanced files) = true →
        ∀ f ∈ files, readOkB o f = true → enhCondB useEnhanced files.length f = false →
          f.filename ∈ processedOf o geminiKey useEnhanced files)
    ∧ (o.writeResult = .ok () →
        (processDocuments o geminiKey now job files useEnhanced).status = .completed) := by
  have hinj : ∀ {x y : FileEntry}, x ∈ files → y ∈ files → x.filename = y.filename → x = y :=
    fun hx hy hxy => List.inj_on_of_nodup_map hnd hx hy hxy
  refine ⟨?_, ?_, ?_, ?_, ?_⟩
  · intro f hf hfail hmem
    rw [processedOf, processed_char] at hmem
    rcases List.mem_append.mp hmem with h1 | h2
    · obtain ⟨g, hg, hgp⟩ := (mem_specList _ _ _).mp h1
      obtain ⟨hgc, hgs, hname⟩ := mem_enhFileProcessed.mp hgp
      have hgf : f = g := hinj hf hg hname
      subst hgf
      rcases hfail with hro | ⟨_, hns⟩
      · exact absurd (enhSuccess_readOk hgs) (by simp [hro])
      · exact absurd hgs (by simp [hns])
    · by_cases hguard : ((!(batchSetOf o useEnhanced files).isEmpty) &&
          batchSucceedsB o geminiKey (batchSetOf o useEnhanced files)) = true
      · rw [if_pos hguard] at h2
        obtain ⟨p, hp, hps⟩ := List.mem_map.mp h2
        rw [batchSetOf, mem_specList] at hp
        obtain ⟨g, hg, hgu⟩ := hp
        obtain ⟨c, hgr, hgc, hpe⟩ := mem_fileUpload.mp hgu
        subst hpe
        have hgf : f = g := hinj hf hg hps.symm
        subst hgf
        rcases hfail with hro | ⟨hct, _⟩
        · rw [readOkB, hgr] at hro
          exact absurd hro (by simp [isOkE])
        · exact absurd hct (by simp [hgc])
      · rw [if_neg hguard] at h2
        exact absurd h2 (List.not_mem_nil _)
  · intro f hf hc hs
    rw [processedOf, processed_char]
    exact List.mem_append.mpr (Or.inl
      ((mem_specList _ _ _).mpr ⟨f, hf, mem_enhFileProcessed.mpr ⟨hc, hs, rfl⟩⟩))
  · intro hbf f hf hro hcf hmem
    rw [processedOf, processed_char] at hmem
    rw [hbf] at hmem
    simp only [Bool.and_false, Bool.false_eq_true, if_false, List.append_nil] at hmem
    obtain ⟨g, hg, hgp⟩ := (mem_specList _ _ _).mp hmem
    obtain ⟨hgc, _, hname⟩ := mem_enhFileProcessed.mp hgp
    have hgf : f = g := hinj hf hg hname
    subst hgf
    exact absurd hgc (by simp [hcf])
  · intro hbt f hf hro hcf
    rw [processedOf, processed_char]
    obtain ⟨c, hc⟩ : ∃ c, o.readFile f.path = .ok c := by
      unfold readOkB isOkE at hro
      rcases hrf : o.readFile f.path with e | c
      · rw [hrf] at hro; exact absurd hro (by simp)
      · exact ⟨c, rfl⟩
    have hmemU : (c, f.filename) ∈ batchSetOf o useEnhanced files := by
      rw [batchSetOf, mem_specList]
      exact ⟨f, hf, mem_fileUpload.mpr ⟨c, hc, hcf, rfl⟩⟩
    have hne : (batchSetOf o useEnhanced files).isEmpty = false := by
      have hnn := List.ne_nil_of_mem hmemU
      cases h : (batchSetOf o useEnhanced files).isEmpty
      · rfl
      · exact absurd (by simpa [List.isEmpty_iff] using h) hnn
    rw [hne, hbt]
    exact List.mem_append.mpr (Or.inr (by
      simp only [Bool.not_false, Bool.and_self, if_pos]
      exact List.mem_map.mpr ⟨(c, f.filename), hmemU, rfl⟩))
  · intro hw
    simp [processDocuments, hw]

theorem c2_failure_isolation_witness :
    ("a.pdf" ∉ processedOf oAllFail "" false [⟨"p0", "a.pdf"⟩])
    ∧ (processDocuments oAllFail "" "t1" job0 [⟨"p0", "a.pdf"⟩] false).status = .completed := by
  have h := c2_failure_isolation oAllFail "" "t1" job0 false [⟨"p0", "a.pdf"⟩] (by decide)
  exact ⟨h.1 ⟨"p0", "a.pdf"⟩ (by simp) (Or.inl (by decide)), h.2.2.2.2 rfl⟩

/-! ### C3: upload validation rejection -/

/-- Closed form of the validation/persist loop when some file is
invalid: the bytes of the longest valid leading run have been written,
and the error identifies the first offending file. -/
theorem uploadLoop_char (maxSize : Nat) (jobId : String) (files : List UploadFileIn) :
    ∀ i : Nat, files.any (fun f => !fileOk maxSize f) = true →
      (uploadLoop maxSize jobId i files).persisted =
          persistEntries jobId i (files.takeWhile (fileOk maxSize))
      ∧ ∃ f, (files.dropWhile (fileOk maxSize)).head? = some f
          ∧ (uploadLoop maxSize jobId i files).err = some (offenseOf maxSize f) := by
  induction files with
  | nil => intro i h; simp at h
  | cons f rest ih =>
    intro i h
    by_cases hok : fileOk maxSize f = true
    · have hext : allowedExtensions.contains ("." ++ fileExtension f.filename) = true :=
        ((Bool.and_eq_true _ _).mp hok).1
      have hsize : ¬(f.content.length > maxSize) := by
        have hs := ((Bool.and_eq_true _ _).mp hok).2
        simpa using hs
      have hrest : rest.any (fun g => !fileOk maxSize g) = true := by
        simpa [hok] using h
      obtain ⟨hp, g, hg, herr⟩ := ih (i + 1) hrest
      constructor
      · simp only [uploadLoop, hext, Bool.not_true, Bool.false_eq_true, if_false,
          hsize, List.takeWhile_cons, hok, persistEntries]
        rw [hp]
      · refine ⟨g, ?_, ?_⟩
        · simpa [List.dropWhile_cons, hok] using hg
        · simp only [uploadLoop, hext, Bool.not_true, Bool.false_eq_true, if_false, hsize]
          exact herr
    · have hok2 : fileOk maxSize f = false := by
        cases hf : fileOk maxSize f
        · rfl
        · exact absurd hf hok
      have ht : (f :: rest).takeWhile (fileOk maxSize) = [] := by
        simp [List.takeWhile_cons, hok2]
      have hd : ((f :: rest).dropWhile (fileOk maxSize)).head? = some f := by
        simp [List.dropWhile_cons, hok2]
      rw [ht]
      by_cases hext : allowedExtensions.contains ("." ++ fileExtension f.filename) = true
      · have hsize : f.content.length > maxSize := by
          by_contra hns
          rw [fileOk, hext] at hok2
          simp [hns] at hok2
        refine ⟨?_, f, hd, ?_⟩
        · simp only [uploadLoop, hext, Bool.not_true, Bool.false_eq_true, if_false,
            hsize, if_true, persistEntries]
        · simp only [uploadLoop, offenseOf, hext, Bool.not_true, Bool.false_eq_true,
            if_false, hsize, if_true]
      · have hextf : allowedExtensions.contains ("." ++ fileExtension f.filename) = false := by
          cases hc : allowedExtensions.contains ("." ++ fileExtension f.filename)
          · rfl
          · exact absurd hc hext
        refine ⟨?_, f, hd, ?_⟩
        · simp only [uploadLoop, hextf, Bool.not_false, if_true, persistEntries]
        · simp only [uploadLoop, offenseOf, hextf, Bool.not_false, if_true,
            Bool.false_eq_true, if_false]

/-- C3 counterexample: a two-file submission whose second file has a
disallowed extension is rejected (client error naming the offending
file, no job record, no job id, no scheduled task) — but the first
file's bytes HAVE been written to the upload directory, refuting the
claim that no bytes of any submitted file are persisted. -/
def c3Files : List UploadFileIn := [⟨"a.pdf", [1]⟩, ⟨"b.exe", []⟩]

theorem c3_counterexample :
    (("." ++ fileExtension "b.exe") ∉ allowedExtensions)
    ∧ (uploadDocuments 100 "J" "t" c3Files false).response =
        .error (.unsupportedType ".exe" "b.exe")
    ∧ (uploadDocuments 100 "J" "t" c3Files false).job = none
    ∧ (uploadDocuments 100 "J" "t" c3Files false).scheduled = none
    ∧ (uploadDocuments 100 "J" "t" c3Files false).persisted = [("J_0_a.pdf", [1])]
    ∧ (uploadDocuments 100 "J" "t" c3Files false).persisted ≠ [] := by
  exact ⟨by decide, rfl, rfl, rfl, rfl, by decide⟩

/-- C3 (amended): an invalid file (disallowed extension or oversized
content) rejects the whole submission with a client error identifying
the first offending file; no job record is created, no job identifier
is returned, no orchestration task is scheduled — but the bytes of the
files preceding the first offender (the longest valid leading run) have
already been persisted to storage. -/
theorem c3_amended_reject_no_job (maxSize : Nat) (jobId createdAt : String)
    (files : List UploadFileIn) (useEnhanced : Bool)
    (hbad : files.any (fun f => !fileOk maxSize f) = true) :
    ∃ f, (files.dropWhile (fileOk maxSize)).head? = some f
      ∧ (uploadDocuments maxSize jobId createdAt files useEnhanced).response =
          .error (offenseOf maxSize f)
      ∧ (uploadDocuments maxSize jobId createdAt files useEnhanced).job = none
      ∧ (uploadDocuments maxSize jobId createdAt files useEnhanced).scheduled = none
      ∧ (uploadDocuments maxSize jobId createdAt files useEnhanced).persisted =
          persistEntries jobId 0 (files.takeWhile (fileOk maxSize)) := by
  have hne : files.isEmpty = false := by
    cases files with
    | nil => simp at hbad
    | cons f rest => rfl
  obtain ⟨hp, f, hf, herr⟩ := uploadLoop_char maxSize jobId files 0 hbad
  refine ⟨f, hf, ?_, ?_, ?_, ?_⟩ <;>
    simp only [uploadDocuments, hne, Bool.false_eq_true, if_false, herr, hp]

theorem c3_amended_reject_no_job_witness :
    ∃ f, (c3Files.dropWhile (fileOk 100)).head? = some f
      ∧ (uploadDocuments 100 "J" "t" c3Files false).response = .error (offenseOf 100 f)
      ∧ (uploadDocuments 100 "J" "t" c3Files false).job = none
      ∧ (uploadDocuments 100 "J" "t" c3Files false).scheduled = none
      ∧ (uploadDocuments 100 "J" "t" c3Files false).persisted =
          persistEntries "J" 0 (c3Files.takeWhile (fileOk 100)) :=
  c3_amended_reject_no_job 100 "J" "t" c3Files false (by decide)

/-! ### C9: the three upload entry points -/

/-- C9: `upload_single_document` with one file is the same operation as
`upload_documents` with the one-element list; `upload_batch_documents`
differs from `upload_documents` only by the 10-file cap applied first
(rejecting oversized batches before any validation, persistence, job
creation or scheduling) and the additive batch metadata attached to the
outcome afterwards. -/
theorem c9_entry_point_refinement (maxSize : Nat) (jobId createdAt : String)
    (file : UploadFileIn) (files : List UploadFileIn) (useEnhanced : Bool)
    (batchName : Option String) :
    uploadSingleDocument maxSize jobId createdAt file useEnhanced =
      uploadDocuments maxSize jobId createdAt [file] useEnhanced
    ∧ (files.length ≤ 10 →
        uploadBatchDocuments maxSize jobId createdAt files useEnhanced batchName =
          attachBatchMeta (uploadDocuments maxSize jobId createdAt files useEnhanced)
            batchName files.length)
    ∧ (files.length > 10 →
        uploadBatchDocuments maxSize jobId createdAt files useEnhanced batchName =
          ⟨[], none, .error .maxBatchSize, none⟩) := by
  refine ⟨rfl, ?_, ?_⟩
  · intro hle
    cases he : files.isEmpty
    · have hgt : ¬(files.length > 10) := by omega
      rcases hr : (uploadDocuments maxSize jobId createdAt files useEnhanced).response
        with e | resp <;>
        simp [uploadBatchDocuments, attachBatchMeta, he, hgt, hr]
    · have hnil : files = [] := by simpa [List.isEmpty_iff] using he
      subst hnil
      rfl
  · intro hgt
    have he : files.isEmpty = false := by
      cases files with
      | nil => simp at hgt
      | cons f rest => rfl
    simp [uploadBatchDocuments, he, hgt]

theorem c9_entry_point_refinement_witness :
    (uploadSingleDocument 100 "J" "t" ⟨"a.pdf", [1]⟩ false =
      uploadDocuments 100 "J" "t" [⟨"a.pdf", [1]⟩] false)
    ∧ (uploadBatchDocuments 100 "J" "t" [⟨"a.pdf", [1]⟩] false (some "B") =
        attachBatchMeta (uploadDocuments 100 "J" "t" [⟨"a.pdf", [1]⟩] false) (some "B") 1)
    ∧ (uploadBatchDocuments 100 "J" "t" (List.replicate 11 ⟨"a.pdf", [1]⟩) false none =
        ⟨[], none, .error .maxBatchSize, none⟩) := by
  refine ⟨(c9_entry_point_refinement 100 "J" "t" ⟨"a.pdf", [1]⟩ [⟨"a.pdf", [1]⟩]
      false (some "B")).1, ?_, ?_⟩
  · exact (c9_entry_point_refinement 100 "J" "t" ⟨"a.pdf", [1]⟩ [⟨"a.pdf", [1]⟩]
      false (some "B")).2.1 (by decide)
  · exact (c9_entry_point_refinement 100 "J" "t" ⟨"a.pdf", [1]⟩
      (List.replicate 11 ⟨"a.pdf", [1]⟩) false none).2.2 (by decide)

/-! ### C6: export column normalization -/

theorem dropColumn_cols (df : DF) (c : String) :
    (dropColumn df c).cols = df.cols.filter (fun x => x != c) := by
  unfold dropColumn
  by_cases h : df.cols.contains c = true
  · rw [if_pos h]
  · rw [if_neg h]
    symm
    apply List.filter_eq_self.mpr
    intro a ha
    have hne : a ≠ c := by
      intro he
      subst he
      have hc : df.cols.contains a = true := by
        simpa [List.elem_iff] using ha
      exact h hc
    simpa [bne_iff_ne] using hne

theorem foldl_dropColumn_cols (rem : List String) (df : DF) :
    (rem.foldl dropColumn df).cols =
      rem.foldl (fun cs r => cs.filter (fun x => x != r)) df.cols := by
  induction rem generalizing df with
  | nil => rfl
  | cons r rest ih => rw [List.foldl_cons, List.foldl_cons, ih, dropColumn_cols]

theorem mem_foldl_filter (rem : List String) : ∀ (cols : List String) (c : String),
    c ∉ rem →
    ((c ∈ rem.foldl (fun cs r => cs.filter (fun x => x != r)) cols) ↔ c ∈ cols) := by
  induction rem with
  | nil => intro cols c h; simp
  | cons r rest ih =>
    intro cols c h
    have hout : c ∉ rest := fun hm => h (by simp [hm])
    have hne : c ≠ r := fun he => h (by simp [he])
    rw [List.foldl_cons, ih _ c hout]
    simp [List.mem_filter, bne_iff_ne, hne]

theorem exportDF_cols_mem (lay : LaytimeOracle) (job : Job) (ov : List NEvent)
    (c : String) (h1 : c ∉ columnsToRemove) (h2 : c ≠ "laytime_counts") :
    (c ∈ (exportDF lay job ov).cols) ↔
      c ∈ (augmentedDF lay (job.summary.getD [])
        (dfOfEvents (selectEvents job ov))).cols := by
  unfold exportDF
  rw [foldl_dropColumn_cols, mem_foldl_filter _ _ _ h1, dropColumn_cols]
  simp [List.mem_filter, bne_iff_ne, h2]

theorem contains_congr {l m : List String} {a : String} (h : a ∈ l ↔ a ∈ m) :
    l.contains a = m.contains a := by
  cases hl : l.contains a <;> cases hm : m.contains a <;> simp_all [List.elem_iff]

/-- C6: every artifact the export produces carries exactly the canonical
columns present in the (possibly laytime-augmented) event frame, in
canonical order, and none of its columns is a denylist column or
`laytime_counts`. -/
theorem c6_export_columns (lay : LaytimeOracle) (job : Job) (ov : List NEvent)
    (fmt jobId : String) (a : Artifact)
    (ha : (exportData lay (some job) ov fmt jobId).artifact = some a) :
    a.cols = preferredColumns.filter (fun c =>
        (augmentedDF lay (job.summary.getD [])
          (dfOfEvents (selectEvents job ov))).cols.contains c)
    ∧ ∀ c ∈ a.cols, c ∉ columnsToRemove ∧ c ≠ "laytime_counts" := by
  have hp : ∀ c ∈ preferredColumns, c ∉ columnsToRemove ∧ c ≠ "laytime_counts" := by
    decide
  have hcols : a.cols = finalColsOf lay job ov := by
    simp only [exportData] at ha
    by_cases h1 : (job.status != JStatus.completed) = true
    · rw [if_pos h1] at ha
      exact absurd ha (by simp)
    · rw [if_neg h1] at ha
      by_cases h2 : (selectEvents job ov).isEmpty = true
      · rw [if_pos h2] at ha
        exact absurd ha (by simp)
      · rw [if_neg h2] at ha
        by_cases h3 : (lowerStr fmt == "csv") = true
        · rw [if_pos h3] at ha
          have hxa := Option.some.inj ha
          rw [← hxa]
        · rw [if_neg h3] at ha
          by_cases h4 : (lowerStr fmt == "json") = true
          · rw [if_pos h4] at ha
            have hxa := Option.some.inj ha
            rw [← hxa]
          · rw [if_neg h4] at ha
            exact absurd ha (by simp)
  constructor
  · rw [hcols, finalColsOf]
    apply List.filter_congr
    intro c hc
    exact contains_congr (exportDF_cols_mem lay job ov c (hp c hc).1 (hp c hc).2)
  · intro c hc
    rw [hcols, finalColsOf] at hc
    exact hp c (List.mem_filter.mp hc).1

/-- A laytime oracle that always raises (never consulted when the job
has no summary). -/
def layFail : LaytimeOracle := fun _ _ => .error "laytime failed"

/-- A completed job with stored events carrying one canonical and one
non-canonical field. -/
def c6Job : Job :=
  { job_id := "j6", status := .completed, user := "demo", filenames := ["a.pdf"],
    total_files := 1, use_enhanced_processing := false, created_at := "t",
    events := some [[("Event", some "X"), ("junk", some "y")]] }

theorem c6_export_columns_witness :
    (⟨"j6_export.csv", ["Event"], [[("Event", some "X")]]⟩ : Artifact).cols =
        preferredColumns.filter (fun c =>
          (augmentedDF layFail (c6Job.summary.getD [])
            (dfOfEvents (selectEvents c6Job []))).cols.contains c)
    ∧ ∀ c ∈ (⟨"j6_export.csv", ["Event"], [[("Event", some "X")]]⟩ : Artifact).cols,
        c ∉ columnsToRemove ∧ c ≠ "laytime_counts" :=
  c6_export_columns layFail c6Job [] "csv" "j6"
    ⟨"j6_export.csv", ["Event"], [[("Event", some "X")]]⟩ rfl

/-! ### C7: override events take precedence; export never mutates the job -/

theorem exportData_events_independent (lay : LaytimeOracle) (fmt jobId : String)
    (j1 j2 : Job) (ov : List NEvent)
    (hst : j1.status = j2.status) (hsum : j1.summary = j2.summary)
    (hsel : selectEvents j1 ov = selectEvents j2 ov) :
    (exportData lay (some j1) ov fmt jobId).artifact =
        (exportData lay (some j2) ov fmt jobId).artifact
    ∧ (exportData lay (some j1) ov fmt jobId).response =
        (exportData lay (some j2) ov fmt jobId).response := by
  have hdf : exportDF lay j1 ov = exportDF lay j2 ov := by
    simp only [exportDF, augmentedDF, hsel, hsum]
  have hfc : finalColsOf lay j1 ov = finalColsOf lay j2 ov := by
    simp only [finalColsOf, hdf]
  constructor <;>
    · simp only [exportData, hst, hsel, hdf, hfc]
      repeat' split
      all_goals rfl

/-- C7: with a non-empty override list the export's artifact and
response do not depend on the job's stored events at all (the override
is the selected source); with an empty override the stored events are
the selected source; and in every case the job record is left exactly
as it was. -/
theorem c7_override_precedence (lay : LaytimeOracle) (fmt jobId : String) (job : Job)
    (ov : List NEvent) :
    (ov ≠ [] →
      (∀ ev1 ev2 : Option (List NEvent),
        (exportData lay (some { job with events := ev1 }) ov fmt jobId).artifact =
            (exportData lay (some { job with events := ev2 }) ov fmt jobId).artifact
        ∧ (exportData lay (some { job with events := ev1 }) ov fmt jobId).response =
            (exportData lay (some { job with events := ev2 }) ov fmt jobId).response)
      ∧ ∀ ev : Option (List NEvent), selectEvents { job with events := ev } ov = ov)
    ∧ (ov = [] → selectEvents job ov = job.events.getD [])
    ∧ (exportData lay (some job) ov fmt jobId).jobAfter = some job := by
  refine ⟨?_, ?_, ?_⟩
  · intro hne
    have hb : ov.isEmpty = false := by
      cases h : ov.isEmpty
      · rfl
      · exact absurd (by simpa [List.isEmpty_iff] using h) hne
    have hsel : ∀ ev : Option (List NEvent), selectEvents { job with events := ev } ov = ov := by
      intro ev
      simp [selectEvents, hb]
    exact ⟨fun ev1 ev2 => exportData_events_independent lay fmt jobId _ _ ov rfl rfl
      ((hsel ev1).trans (hsel ev2).symm), hsel⟩
  · intro he
    subst he
    simp [selectEvents]
  · simp only [exportData]
    repeat' split
    all_goals rfl

/-- A completed job used to exercise the export source selection. -/
def c7Job : Job :=
  { job_id := "j7", status := .completed, user := "demo", filenames := ["a.pdf"],
    total_files := 1, use_enhanced_processing := false, created_at := "t",
    events := some [[("Event", some "Stored")]] }

theorem c7_override_precedence_witness :
    ((exportData layFail (some { c7Job with events := some [[("Event", some "A")]] })
        [[("Event", some "Manual")]] "csv" "j7").artifact =
      (exportData layFail (some { c7Job with events := some [[("Event", some "B")]] })
        [[("Event", some "Manual")]] "csv" "j7").artifact)
    ∧ selectEvents c7Job [] = c7Job.events.getD []
    ∧ (exportData layFail (some c7Job) [] "csv" "j7").jobAfter = some c7Job := by
  have h := c7_override_precedence layFail "csv" "j7" c7Job [[("Event", some "Manual")]]
  have h2 := c7_override_precedence layFail "csv" "j7" c7Job []
  exact ⟨((h.1 (by decide)).1 (some [[("Event", some "A")]])
      (some [[("Event", some "B")]])).1,
    h2.2.1 rfl, h2.2.2⟩

/-! ### C8: unsupported export format -/

/-- A completed job with one stored event, used as the failing input. -/
def c8Job : Job :=
  { job_id := "j8", status := .completed, user := "demo", filenames := ["a.pdf"],
    total_files := 1, use_enhanced_processing := false, created_at := "t",
    events := some [[("Event", some "Arrival")]] }

/-- C8 (behaviour at the failing input): requesting format "xml" on a
COMPLETED job with events produces no artifact — but the caller
receives a 500 server error wrapping the swallowed 400, not a
bad-request error: the `HTTPException(400, ...)` raised by the format
check sits inside the `try:` whose only handler is `except Exception`,
which re-raises it as `HTTPException(500, "Export failed: ...")`
(`export_data` lacks the `except HTTPException: raise` clause that the
upload endpoints have). -/
theorem c8_unsupported_format_behavior :
    (exportData layFail (some c8Job) [] "xml" "j8").artifact = none
    ∧ (exportData layFail (some c8Job) [] "xml" "j8").response =
        .error ⟨500,
          "Export failed: 400: Invalid export format. Use \x27csv\x27 or \x27json\x27"⟩
    ∧ ¬∃ d, (exportData layFail (some c8Job) [] "xml" "j8").response = .error ⟨400, d⟩ := by
  refine ⟨rfl, rfl, ?_⟩
  rintro ⟨d, hd⟩
  have h : (exportData layFail (some c8Job) [] "xml" "j8").response =
      .error ⟨500,
        "Export failed: 400: Invalid export format. Use \x27csv\x27 or \x27json\x27"⟩ := rfl
  rw [h] at hd
  simp [HErr.mk.injEq] at hd

end SofApp
